import Mathlib

/-!
Verification of `prepare_data2.py`, a corpus-to-dataset preprocessing
pipeline.  The program reads text files, concatenates them with a newline
between files, builds a character-to-index vocabulary (with three reserved
entries `<PAD> = 0`, `<S> = 1`, `</S> = 2`, content characters receiving
indices 3 and above), splits the concatenated text by a delimiter pattern,
maps each substring to a list of indices wrapped in start/end markers,
optionally filters by a maximum length, and serializes the surviving
sequences as records holding a variable-length integer field named `seq`,
together with a paired record reader `parse_seq`.

The shallow embedding below models Python strings as `List Char`, Python
dicts as association lists with first-match lookup, Python exceptions
(`KeyError`, `ValueError` from `max()` on an empty collection) via
`Except String`, and the record serialization at the level of the varint
byte encoding of the packed int64 list, paired with the reader's decode
(which, as in the source, casts the parsed values to 32-bit integers).
-/

namespace PrepareData

/-- Python strings are modelled as lists of characters. -/
abbrev PyStr := List Char

/-- A Python dict from string keys to integer values, modelled as an
association list; lookup returns the value of the first matching entry
(entirely adequate here since the program never creates duplicate keys). -/
abbrev Vocab := List (PyStr × Nat)

/-- Dict lookup `m[k]` returning `none` when the key is absent. -/
def vlookup (m : Vocab) (k : PyStr) : Option Nat :=
  (m.find? (fun p => decide (p.1 = k))).map Prod.snd

/-- Dict lookup `m[k]` raising `KeyError` when the key is absent. -/
def dlookup (m : Vocab) (k : PyStr) : Except String Nat :=
  match vlookup m k with
  | some v => Except.ok v
  | none => Except.error "KeyError"

/-- The reserved padding key `<PAD>` (index 0). -/
def PAD_KEY : PyStr := "<PAD>".toList

/-- The reserved start-of-sequence key `<S>` (index 1). -/
def S_KEY : PyStr := "<S>".toList

/-- The reserved end-of-sequence key `</S>` (index 2). -/
def E_KEY : PyStr := "</S>".toList

/-- Lines 32-36 of `files_to_tfrecord_dynamic`:
`ch_to_ind = dict(zip(chars, range(3, len(chars)+3)))` followed by the
insertion of the three reserved entries.  `chars` is the enumeration of
`set(full_text)` in the (unspecified) order Python iterates the set; it is
passed explicitly because that order is not determined by the source. -/
def mkVocab (chars : List Char) : Vocab :=
  (chars.map (fun c => [c])).zip (List.range' 3 chars.length)
    ++ [(PAD_KEY, 0), (S_KEY, 1), (E_KEY, 2)]

/-- A Python list comprehension `[f x for x in l]` whose body may raise:
the elements are processed left to right and the first failure aborts. -/
def mapExcept {α β : Type} (f : α → Except String β) : List α → Except String (List β)
  | [] => Except.ok []
  | a :: as =>
    match f a with
    | Except.error e => Except.error e
    | Except.ok b =>
      match mapExcept f as with
      | Except.error e => Except.error e
      | Except.ok bs => Except.ok (b :: bs)

/-- Lines 98-108, `chs_to_inds(char_list, mapping)`:
`[mapping[ch] for ch in char_list]`, raising `KeyError` on the first
character absent from the mapping. -/
def chs_to_inds (char_list : PyStr) (mapping : Vocab) : Except String (List Nat) :=
  mapExcept (fun ch => dlookup mapping [ch]) char_list

/-- Fuel-indexed worker for `literalSplit`; the fuel only serves to make the
recursion structural and is always supplied as the length of the text, which
suffices because each delimiter occurrence consumes at least one character. -/
def splitAux (sep : PyStr) : Nat → PyStr → List PyStr
  | _, [] => [[]]
  | 0, l => [l]
  | fuel + 1, c :: rest =>
    if sep ≠ [] ∧ sep.isPrefixOf (c :: rest) then
      [] :: splitAux sep fuel ((c :: rest).drop sep.length)
    else
      match splitAux sep fuel rest with
      | [] => [[c]]
      | p :: ps => (c :: p) :: ps

/-- Model of `re.split(regex, text)` (line 93) for literal,
metacharacter-free delimiter patterns, which is the regime the pipeline is
used in: the text is cut at every occurrence of the delimiter, the delimiter
is discarded, consecutive delimiters yield empty substrings, and leading or
trailing delimiters yield leading or trailing empty substrings.  An empty
pattern performs no split here (Python's `re.split` with an empty pattern is
a separate regime never exercised by this program). -/
def literalSplit (sep l : PyStr) : List PyStr :=
  splitAux sep l.length l

/-- The comprehension body of lines 94-95: one split substring becomes
`[mapping["<S>"]] + chs_to_inds(seq, mapping) + [mapping["</S>"]]`, with the
three lookups evaluated left to right as in Python. -/
def seq_of_piece (mapping : Vocab) (piece : PyStr) : Except String (List Nat) :=
  match dlookup mapping S_KEY with
  | Except.error e => Except.error e
  | Except.ok s =>
    match chs_to_inds piece mapping with
    | Except.error e => Except.error e
    | Except.ok mid =>
      match dlookup mapping E_KEY with
      | Except.error e => Except.error e
      | Except.ok en => Except.ok ([s] ++ mid ++ [en])

/-- Lines 79-95, `text_to_seqs(text, regex, mapping)`: split the text by the
delimiter pattern and convert every substring to a marker-wrapped index
sequence. -/
def text_to_seqs (text regex : PyStr) (mapping : Vocab) : Except String (List (List Nat)) :=
  mapExcept (seq_of_piece mapping) (literalSplit regex text)

/-- Python's `max()` over a collection of lengths: `ValueError` on empty
input, otherwise the maximum. -/
def listMax (l : List Nat) : Except String Nat :=
  match l with
  | [] => Except.error "ValueError: max arg is an empty sequence"
  | x :: xs => Except.ok (xs.foldl max x)

/-- Line 45: `[seq for seq in seqs if len(seq) < maxlen]`. -/
def maxlenFilter (maxlen : Nat) (seqs : List (List Nat)) : List (List Nat) :=
  seqs.filter (fun seq => decide (seq.length < maxlen))

/-- Line 50: `[seq for seq in seqs if len(seq) > 0]`. -/
def len0Filter (seqs : List (List Nat)) : List (List Nat) :=
  seqs.filter (fun seq => decide (0 < seq.length))

/-- The observable outcome of one pipeline run: the ordered list of
sequences written to the records file and the vocabulary written to the
companion file. -/
structure PipelineResult where
  records : List (List Nat)
  vocab : Vocab
deriving DecidableEq, Repr

/-- Lines 30-62, `files_to_tfrecord_dynamic`: the pipeline body.  File
contents are passed directly (the files have already been read); `chars` is
the iteration order of `set(full_text)` as in `mkVocab`; `out_path` and the
plotting flag are omitted, the function returning the written records and
vocabulary instead of performing file I O.  The two `max(...)` reporting
calls are retained because they raise `ValueError` on an empty collection,
which is the pipeline's only failure mode besides `KeyError`. -/
def files_to_tfrecord_dynamic (chars : List Char) (files : List PyStr)
    (regex : PyStr) (maxlen : Nat) : Except String PipelineResult :=
  match text_to_seqs (List.intercalate ['\n'] files) regex (mkVocab chars) with
  | Except.error e => Except.error e
  | Except.ok seqs =>
    match listMax (seqs.map List.length) with
    | Except.error e => Except.error e
    | Except.ok _ =>
      if maxlen ≠ 0 then
        match listMax ((maxlenFilter maxlen seqs).map List.length) with
        | Except.error e => Except.error e
        | Except.ok _ => Except.ok ⟨len0Filter (maxlenFilter maxlen seqs), mkVocab chars⟩
      else Except.ok ⟨len0Filter seqs, mkVocab chars⟩

/-- Fuel-indexed worker for `varintEncode`; fuel `n` always suffices for
value `n` because the value shrinks by a factor of 128 per emitted byte. -/
def varintEncodeAux : Nat → Nat → List Nat
  | 0, n => [n % 128]
  | fuel + 1, n => if n < 128 then [n] else (n % 128 + 128) :: varintEncodeAux fuel (n / 128)

/-- Base-128 varint encoding of one non-negative integer, least significant
group first, continuation bit on every byte but the last — the wire encoding
protobuf uses for each value of an `Int64List`. -/
def varintEncode (n : Nat) : List Nat :=
  varintEncodeAux n n

/-- Decode one varint from the front of a byte list, returning the value and
the remaining bytes; `none` on truncated input. -/
def varintDecode : List Nat → Option (Nat × List Nat)
  | [] => none
  | b :: rest =>
    if b < 128 then some (b, rest)
    else
      match varintDecode rest with
      | some (v, r) => some (v * 128 + (b - 128), r)
      | none => none

/-- The packed byte payload of the `seq` feature: the varint encodings of
the values, concatenated in order. -/
def encodeInt64List (seq : List Nat) : List Nat :=
  (seq.map varintEncode).flatten

/-- Fuel-indexed worker for `decodeAll`; fuel equal to the byte count
suffices because every varint consumes at least one byte. -/
def decodeAllAux : Nat → List Nat → Option (List Nat)
  | _, [] => some []
  | 0, _ :: _ => none
  | fuel + 1, b :: rest =>
    match varintDecode (b :: rest) with
    | some (v, r) => (decodeAllAux fuel r).map (fun vs => v :: vs)
    | none => none

/-- Decode a packed varint payload back into the list of values it holds. -/
def decodeAll (bytes : List Nat) : Option (List Nat) :=
  decodeAllAux bytes.length bytes

/-- Lines 55-58: the record written for one sequence — a protobuf `Example`
holding a single feature named `seq` whose value is the integer list, here
kept at the level of the feature map with the packed varint payload. -/
def serializeExample (seq : List Nat) : List (PyStr × List Nat) :=
  [("seq".toList, encodeInt64List seq)]

/-- `tf.cast(x, tf.int32)` on a non-negative 64-bit value: truncation to the
low 32 bits, reinterpreted as a signed 32-bit integer. -/
def int32cast (n : Nat) : Int :=
  if n % 2 ^ 32 < 2 ^ 31 then ((n % 2 ^ 32 : Nat) : Int)
  else ((n % 2 ^ 32 : Nat) : Int) - 2 ^ 32

/-- Lines 111-124, `parse_seq(example_proto)`: look up the variable-length
integer feature named `seq` in one serialized record, decode it into a dense
ordered integer list, and cast the values to 32-bit integers as the source
does with `tf.cast(..., tf.int32)`. -/
def parse_seq (record : List (PyStr × List Nat)) : Except String (List Int) :=
  match record.find? (fun p => decide (p.1 = "seq".toList)) with
  | none => Except.error "seq feature missing"
  | some p =>
    match decodeAll p.2 with
    | none => Except.error "decode failure"
    | some vs => Except.ok (vs.map int32cast)

/-- Reverse lookup in a vocabulary: the key of the first entry carrying a
given index.  Used to state that a produced sequence decodes back to the
substring it came from. -/
def ind_to_ch (m : Vocab) (i : Nat) : Option PyStr :=
  (m.find? (fun p => decide (p.2 = i))).map Prod.fst

/-- The decoded character content of a sequence with its two boundary
markers stripped: each inner index mapped back through the vocabulary. -/
def decodeContent (m : Vocab) (s : List Nat) : Option PyStr :=
  ((s.drop 1).dropLast.mapM (ind_to_ch m)).map List.flatten

/-- One concrete enumeration of `set("ab,cd,ef")`, used to instantiate the
split/join test property (Python's set iteration order is unspecified; this
is one admissible order). -/
def demoChars : List Char := ['a', 'b', ',', 'c', 'd', 'e', 'f']

/-! ### Vocabulary lemmas -/

theorem PAD_KEY_eq : PAD_KEY = ['<', 'P', 'A', 'D', '>'] := rfl

theorem S_KEY_eq : S_KEY = ['<', 'S', '>'] := rfl

theorem E_KEY_eq : E_KEY = ['<', '/', 'S', '>'] := rfl

/-- The zipped character part of the vocabulary has only single-character
keys, so a multi-character key is never found there. -/
theorem find?_vocabZip_eq_none (chars : List Char) (s : Nat) (k : PyStr)
    (hk : ∀ c : Char, k ≠ [c]) :
    ((chars.map (fun c => [c])).zip (List.range' s chars.length)).find?
      (fun p => decide (p.1 = k)) = none := by
  induction chars generalizing s with
  | nil => rfl
  | cons c rest ih =>
    simp only [List.map_cons, List.length_cons, List.range'_succ, List.zip_cons_cons]
    rw [List.find?_cons_of_neg]
    · exact ih (s + 1)
    · simp only [decide_eq_true_eq]
      exact fun h => hk c h.symm

/-- The reserved tail of the vocabulary has only multi-character keys, so a
single-character key is never found there. -/
theorem find?_reserved_char (c : Char) :
    List.find? (fun p => decide (p.1 = [c]))
      ([(PAD_KEY, 0), (S_KEY, 1), (E_KEY, 2)] : Vocab) = none := by
  simp [PAD_KEY_eq, S_KEY_eq, E_KEY_eq]

theorem vlookup_mkVocab_PAD (chars : List Char) :
    vlookup (mkVocab chars) PAD_KEY = some 0 := by
  unfold vlookup mkVocab
  rw [List.find?_append, find?_vocabZip_eq_none chars 3 PAD_KEY
    (by intro c h; simp [PAD_KEY_eq] at h)]
  simp

theorem vlookup_mkVocab_S (chars : List Char) :
    vlookup (mkVocab chars) S_KEY = some 1 := by
  unfold vlookup mkVocab
  rw [List.find?_append, find?_vocabZip_eq_none chars 3 S_KEY
    (by intro c h; simp [S_KEY_eq] at h)]
  simp [PAD_KEY_eq, S_KEY_eq]

theorem vlookup_mkVocab_E (chars : List Char) :
    vlookup (mkVocab chars) E_KEY = some 2 := by
  unfold vlookup mkVocab
  rw [List.find?_append, find?_vocabZip_eq_none chars 3 E_KEY
    (by intro c h; simp [E_KEY_eq] at h)]
  simp [PAD_KEY_eq, S_KEY_eq, E_KEY_eq]

/-- Any successful single-character lookup in a built vocabulary yields a
content index, which is at least 3. -/
theorem vlookup_mkVocab_char_ge (chars : List Char) (c : Char) (v : Nat)
    (h : vlookup (mkVocab chars) [c] = some v) : 3 ≤ v := by
  unfold vlookup mkVocab at h
  rw [List.find?_append] at h
  cases hz : ((chars.map (fun c => [c])).zip (List.range' 3 chars.length)).find?
      (fun p => decide (p.1 = [c])) with
  | some e =>
    rw [hz] at h
    simp only [Option.or_some, Option.map_some] at h
    obtain ⟨a, b⟩ := e
    have hb := (List.of_mem_zip (List.mem_of_find?_eq_some hz)).2
    rw [List.mem_range'_1] at hb
    injection h with h
    omega
  | none =>
    rw [hz, Option.none_or, find?_reserved_char] at h
    simp at h

/-- Every character of the enumerated set is found in the built vocabulary,
with a content index at least 3. -/
theorem vlookup_mkVocab_of_mem (chars : List Char) (c : Char) (hc : c ∈ chars) :
    ∃ v, vlookup (mkVocab chars) [c] = some v ∧ 3 ≤ v := by
  have key : ∀ (l : List Char), c ∈ l → ∀ s : Nat, ∃ v, s ≤ v ∧
      ((l.map (fun c => [c])).zip (List.range' s l.length)).find?
        (fun p => decide (p.1 = [c])) = some ([c], v) := by
    intro l
    induction l with
    | nil => intro hl; cases hl
    | cons c' rest ih =>
      intro hl s
      simp only [List.map_cons, List.length_cons, List.range'_succ, List.zip_cons_cons]
      by_cases hcc : c' = c
      · subst hcc
        exact ⟨s, Nat.le_refl s, by rw [List.find?_cons_of_pos _ (by simp)]⟩
      · rw [List.find?_cons_of_neg _ (by simp [hcc])]
        have hmem : c ∈ rest := by
          rcases List.mem_cons.mp hl with h | h
          · exact absurd h.symm hcc
          · exact h
        obtain ⟨v, hv, hfind⟩ := ih hmem (s + 1)
        exact ⟨v, by omega, hfind⟩
  obtain ⟨v, hv, hfind⟩ := key chars hc 3
  refine ⟨v, ?_, hv⟩
  unfold vlookup mkVocab
  rw [List.find?_append, hfind]
  simp

theorem mkVocab_length (chars : List Char) :
    (mkVocab chars).length = chars.length + 3 := by
  simp [mkVocab]

/-- The values of a built vocabulary are exactly the integers below its
size, each occurring once. -/
theorem mkVocab_values_perm (chars : List Char) :
    ((mkVocab chars).map Prod.snd).Perm (List.range ((mkVocab chars).length)) := by
  rw [mkVocab_length]
  unfold mkVocab
  rw [List.map_append, List.map_snd_zip _ _ (by simp)]
  have hr : List.range (chars.length + 3) = [0, 1, 2] ++ List.range' 3 chars.length := by
    rw [List.range_eq_range']
    have h3 := List.range'_append_1 0 3 chars.length
    simp only [Nat.zero_add] at h3
    rw [← h3]
    rfl
  rw [hr]
  exact List.perm_append_comm

/-! ### Lemmas about the comprehension combinator -/

theorem mapExcept_ok_mem {α β : Type} (f : α → Except String β) :
    ∀ (l : List α) (out : List β), mapExcept f l = Except.ok out →
      ∀ b ∈ out, ∃ a ∈ l, f a = Except.ok b := by
  intro l
  induction l with
  | nil =>
    intro out h b hb
    simp only [mapExcept] at h
    injection h with h
    subst h
    cases hb
  | cons a as ih =>
    intro out h b hb
    simp only [mapExcept] at h
    cases hfa : f a with
    | error e => rw [hfa] at h; simp at h
    | ok bv =>
      rw [hfa] at h
      cases hrest : mapExcept f as with
      | error e => rw [hrest] at h; simp at h
      | ok bs =>
        rw [hrest] at h
        injection h with h
        subst h
        rcases List.mem_cons.mp hb with rfl | hb'
        · exact ⟨a, List.mem_cons_self a as, hfa⟩
        · obtain ⟨a', ha', hfa'⟩ := ih bs hrest b hb'
          exact ⟨a', List.mem_cons_of_mem a ha', hfa'⟩

theorem mapExcept_ok_forall {α β : Type} (f : α → Except String β) :
    ∀ (l : List α) (out : List β), mapExcept f l = Except.ok out →
      ∀ a ∈ l, ∃ b, f a = Except.ok b := by
  intro l
  induction l with
  | nil => intro out _ a ha; cases ha
  | cons a as ih =>
    intro out h a' ha'
    simp only [mapExcept] at h
    cases hfa : f a with
    | error e => rw [hfa] at h; simp at h
    | ok bv =>
      rw [hfa] at h
      cases hrest : mapExcept f as with
      | error e => rw [hrest] at h; simp at h
      | ok bs =>
        rcases List.mem_cons.mp ha' with rfl | hmem
        · exact ⟨bv, hfa⟩
        · exact ih bs hrest a' hmem

theorem mapExcept_ok_of_forall {α β : Type} (f : α → Except String β) :
    ∀ l : List α, (∀ a ∈ l, ∃ b, f a = Except.ok b) →
      ∃ out, mapExcept f l = Except.ok out := by
  intro l
  induction l with
  | nil => intro _; exact ⟨[], rfl⟩
  | cons a as ih =>
    intro hall
    obtain ⟨b, hb⟩ := hall a (List.mem_cons_self a as)
    obtain ⟨bs, hbs⟩ := ih (fun a' ha' => hall a' (List.mem_cons_of_mem a ha'))
    exact ⟨b :: bs, by simp only [mapExcept]; rw [hb, hbs]⟩

/-! ### Structure of splitter output -/

theorem dlookup_ok_iff (m : Vocab) (k : PyStr) (v : Nat) :
    dlookup m k = Except.ok v ↔ vlookup m k = some v := by
  unfold dlookup
  cases vlookup m k <;> simp

/-- The split of a text is never the empty list: like Python's `re.split`,
it yields at least one (possibly empty) substring. -/
theorem literalSplit_ne_nil (sep l : PyStr) : literalSplit sep l ≠ [] := by
  unfold literalSplit
  generalize l.length = fuel
  induction fuel generalizing l with
  | zero => cases l <;> simp [splitAux]
  | succ n ih =>
    cases l with
    | nil => simp [splitAux]
    | cons c rest =>
      simp only [splitAux]
      split
      · simp
      · cases h : splitAux sep n rest with
        | nil => simp
        | cons p ps => simp

/-- Dissection of one successful comprehension body: the produced sequence
is the START index, then the content indices, then the END index. -/
theorem seq_of_piece_ok (mapping : Vocab) (piece : PyStr) (s : List Nat)
    (h : seq_of_piece mapping piece = Except.ok s) :
    ∃ i mid j, vlookup mapping S_KEY = some i ∧
      chs_to_inds piece mapping = Except.ok mid ∧
      vlookup mapping E_KEY = some j ∧ s = i :: (mid ++ [j]) := by
  unfold seq_of_piece at h
  cases h1 : dlookup mapping S_KEY with
  | error e => rw [h1] at h; simp at h
  | ok i =>
    rw [h1] at h
    cases h2 : chs_to_inds piece mapping with
    | error e => rw [h2] at h; simp at h
    | ok mid =>
      rw [h2] at h
      cases h3 : dlookup mapping E_KEY with
      | error e => rw [h3] at h; simp at h
      | ok j =>
        rw [h3] at h
        injection h with h
        exact ⟨i, mid, j, (dlookup_ok_iff _ _ _).mp h1, rfl,
          (dlookup_ok_iff _ _ _).mp h3, by rw [← h]; rfl⟩

/-- Dissection of one member of a successful `text_to_seqs` run. -/
theorem text_to_seqs_mem (text regex : PyStr) (mapping : Vocab)
    (seqs : List (List Nat)) (s : List Nat)
    (hok : text_to_seqs text regex mapping = Except.ok seqs) (hs : s ∈ seqs) :
    ∃ piece i mid j, piece ∈ literalSplit regex text ∧
      vlookup mapping S_KEY = some i ∧
      chs_to_inds piece mapping = Except.ok mid ∧
      vlookup mapping E_KEY = some j ∧ s = i :: (mid ++ [j]) := by
  obtain ⟨piece, hp, hps⟩ := mapExcept_ok_mem _ _ _ hok s hs
  obtain ⟨i, mid, j, h1, h2, h3, h4⟩ := seq_of_piece_ok mapping piece s hps
  exact ⟨piece, i, mid, j, hp, h1, h2, h3, h4⟩

/-- Every content index of a successful character conversion is the
vocabulary value of some character of the piece. -/
theorem chs_to_inds_ok_mem (piece : PyStr) (mapping : Vocab) (mid : List Nat)
    (h : chs_to_inds piece mapping = Except.ok mid) :
    ∀ v ∈ mid, ∃ c ∈ piece, vlookup mapping [c] = some v := by
  intro v hv
  obtain ⟨c, hc, hfc⟩ := mapExcept_ok_mem _ _ _ h v hv
  exact ⟨c, hc, (dlookup_ok_iff _ _ _).mp hfc⟩

/-- Dissection of a successful pipeline run: the vocabulary is the built
one, and every written record is a splitter output that passed the optional
maxlen filter and the length-0 filter. -/
theorem pipeline_ok_spec (chars : List Char) (files : List PyStr) (regex : PyStr)
    (maxlen : Nat) (out : PipelineResult)
    (hok : files_to_tfrecord_dynamic chars files regex maxlen = Except.ok out) :
    out.vocab = mkVocab chars ∧
    ∃ seqs, text_to_seqs (List.intercalate ['\n'] files) regex (mkVocab chars) =
        Except.ok seqs ∧
      ∀ s ∈ out.records, s ∈ seqs ∧ (maxlen ≠ 0 → s.length < maxlen) ∧ 0 < s.length := by
  unfold files_to_tfrecord_dynamic at hok
  split at hok
  · exact absurd hok (by simp)
  · rename_i seqs h1
    split at hok
    · exact absurd hok (by simp)
    · rename_i m h2
      split at hok
      · rename_i hml
        split at hok
        · exact absurd hok (by simp)
        · rename_i m2 h3
          injection hok with hok
          subst hok
          refine ⟨rfl, seqs, h1, ?_⟩
          intro s hsrec
          simp only [len0Filter, maxlenFilter, List.mem_filter,
            decide_eq_true_eq] at hsrec
          exact ⟨hsrec.1.1, fun _ => hsrec.1.2, hsrec.2⟩
      · rename_i hml
        injection hok with hok
        subst hok
        refine ⟨rfl, seqs, h1, ?_⟩
        intro s hsrec
        simp only [len0Filter, List.mem_filter, decide_eq_true_eq] at hsrec
        exact ⟨hsrec.1, fun hc => absurd hc hml, hsrec.2⟩

/-! ### Serialization round trip -/

theorem varintEncodeAux_ne_nil (fuel n : Nat) : varintEncodeAux fuel n ≠ [] := by
  cases fuel with
  | zero => simp [varintEncodeAux]
  | succ f =>
    simp only [varintEncodeAux]
    split <;> simp

/-- Decoding undoes encoding for any sufficient fuel, with arbitrary
trailing bytes preserved. -/
theorem varintDecode_encodeAux (fuel : Nat) :
    ∀ (n : Nat), n ≤ fuel → ∀ (rest : List Nat),
      varintDecode (varintEncodeAux fuel n ++ rest) = some (n, rest) := by
  induction fuel with
  | zero =>
    intro n hn rest
    have : n = 0 := Nat.le_zero.mp hn
    subst this
    rfl
  | succ f ih =>
    intro n hn rest
    simp only [varintEncodeAux]
    by_cases h : n < 128
    · rw [if_pos h]
      simp [varintDecode, h]
    · rw [if_neg h]
      rw [List.cons_append]
      simp only [varintDecode]
      rw [if_neg (by omega)]
      rw [ih (n / 128) (by omega) rest]
      show some (n / 128 * 128 + (n % 128 + 128 - 128), rest) = some (n, rest)
      have heq : n / 128 * 128 + (n % 128 + 128 - 128) = n := by omega
      rw [heq]

theorem varintDecode_encode (n : Nat) (rest : List Nat) :
    varintDecode (varintEncode n ++ rest) = some (n, rest) :=
  varintDecode_encodeAux n n (Nat.le_refl n) rest

theorem decodeAllAux_encode (l : List Nat) :
    ∀ fuel, (encodeInt64List l).length ≤ fuel →
      decodeAllAux fuel (encodeInt64List l) = some l := by
  induction l with
  | nil =>
    intro fuel _
    cases fuel <;> rfl
  | cons n ns ih =>
    intro fuel hlen
    have henc : encodeInt64List (n :: ns) = varintEncode n ++ encodeInt64List ns := by
      simp [encodeInt64List]
    rw [henc] at hlen ⊢
    cases hv : varintEncode n with
    | nil => exact absurd hv (varintEncodeAux_ne_nil n n)
    | cons b bs =>
      cases fuel with
      | zero =>
        rw [hv] at hlen
        simp at hlen
      | succ f =>
        rw [List.cons_append]
        simp only [decodeAllAux]
        have hdec : varintDecode (b :: (bs ++ encodeInt64List ns)) =
            some (n, encodeInt64List ns) := by
          have h := varintDecode_encode n (encodeInt64List ns)
          rw [hv, List.cons_append] at h
          exact h
        rw [hdec]
        show Option.map (fun vs => n :: vs) (decodeAllAux f (encodeInt64List ns)) =
          some (n :: ns)
        rw [hv] at hlen
        rw [ih f (by simp at hlen; omega)]
        rfl

/-- The packed varint payload decodes back to exactly the list of values it
was produced from. -/
theorem decodeAll_encode (l : List Nat) : decodeAll (encodeInt64List l) = some l :=
  decodeAllAux_encode l _ (Nat.le_refl _)

/-! ### Claim theorems -/

/-- Claim C1: for every corpus, the produced vocabulary contains every
character occurring in the text as a key, its indices are exactly the
distinct integers below the vocabulary size (hence unique and in range),
the reserved entries map PAD to 0, START to 1 and END to 2 regardless of
corpus content, and every content-character index is at least 3. -/
theorem claim_vocab_correct (text chars : List Char)
    (_hnd : chars.Nodup) (hmem : ∀ c : Char, c ∈ chars ↔ c ∈ text) :
    (∀ c ∈ text, ∃ v, vlookup (mkVocab chars) [c] = some v ∧ 3 ≤ v) ∧
    ((mkVocab chars).map Prod.snd).Perm (List.range (mkVocab chars).length) ∧
    vlookup (mkVocab chars) PAD_KEY = some 0 ∧
    vlookup (mkVocab chars) S_KEY = some 1 ∧
    vlookup (mkVocab chars) E_KEY = some 2 := by
  refine ⟨?_, mkVocab_values_perm chars, vlookup_mkVocab_PAD chars,
    vlookup_mkVocab_S chars, vlookup_mkVocab_E chars⟩
  intro c hc
  exact vlookup_mkVocab_of_mem chars c ((hmem c).mpr hc)

theorem claim_vocab_correct_witness :
    (∀ c ∈ ['a'], ∃ v, vlookup (mkVocab ['a']) [c] = some v ∧ 3 ≤ v) ∧
    ((mkVocab ['a']).map Prod.snd).Perm (List.range (mkVocab ['a']).length) ∧
    vlookup (mkVocab ['a']) PAD_KEY = some 0 ∧
    vlookup (mkVocab ['a']) S_KEY = some 1 ∧
    vlookup (mkVocab ['a']) E_KEY = some 2 :=
  claim_vocab_correct ['a'] ['a'] (by simp) (fun _ => Iff.rfl)

/-- Claim C2: for every text, delimiter pattern and vocabulary, every
sequence produced by the splitter begins with the START index, ends with
the END index, and has length at least 2 (zero or more content indices in
between). -/
theorem claim_boundary_invariant (text regex : PyStr) (mapping : Vocab)
    (seqs : List (List Nat)) (s : List Nat)
    (hok : text_to_seqs text regex mapping = Except.ok seqs) (hs : s ∈ seqs) :
    ∃ i j, vlookup mapping S_KEY = some i ∧ vlookup mapping E_KEY = some j ∧
      s.head? = some i ∧ s.getLast? = some j ∧ 2 ≤ s.length := by
  obtain ⟨piece, i, mid, j, _, h2, _, h4, h5⟩ :=
    text_to_seqs_mem text regex mapping seqs s hok hs
  subst h5
  refine ⟨i, j, h2, h4, rfl, ?_, by simp⟩
  rw [show i :: (mid ++ [j]) = (i :: mid) ++ [j] by simp]
  exact List.getLast?_concat _

theorem claim_boundary_invariant_witness :
    ∃ i j, vlookup (mkVocab ['a']) S_KEY = some i ∧
      vlookup (mkVocab ['a']) E_KEY = some j ∧
      ([1, 3, 2] : List Nat).head? = some i ∧
      ([1, 3, 2] : List Nat).getLast? = some j ∧
      2 ≤ ([1, 3, 2] : List Nat).length :=
  claim_boundary_invariant ['a'] [','] (mkVocab ['a']) [[1, 3, 2]] [1, 3, 2]
    (by rfl) (by decide)

/-- Claim C3: with a nonzero maxlen of k, every sequence retained by the
length filter has length strictly below k; a sequence of length exactly k
is excluded, one of length k-1 present in the input is retained; and every
record written by a successful pipeline run with that maxlen has length
strictly below k. -/
theorem claim_maxlen_strict (k : Nat) (hk : k ≠ 0) (seqs : List (List Nat))
    (s : List Nat) :
    (∀ t ∈ maxlenFilter k seqs, t.length < k) ∧
    (s.length = k → s ∉ maxlenFilter k seqs) ∧
    (s.length = k - 1 → s ∈ seqs → s ∈ maxlenFilter k seqs) ∧
    (∀ (chars : List Char) (files : List PyStr) (regex : PyStr)
      (out : PipelineResult),
      files_to_tfrecord_dynamic chars files regex k = Except.ok out →
      ∀ t ∈ out.records, t.length < k) := by
  refine ⟨?_, ?_, ?_, ?_⟩
  · intro t ht
    have := (List.mem_filter.mp ht).2
    simpa using this
  · intro hlen hmem
    have := (List.mem_filter.mp hmem).2
    simp [hlen] at this
  · intro hlen hmem
    rw [maxlenFilter, List.mem_filter]
    refine ⟨hmem, by simp; omega⟩
  · intro chars files regex out hok t ht
    obtain ⟨_, seqs', _, hrec⟩ := pipeline_ok_spec chars files regex k out hok
    exact (hrec t ht).2.1 hk

theorem claim_maxlen_strict_witness :
    (∀ t ∈ maxlenFilter 3 [[1, 2], [1, 5, 6, 2]], t.length < 3) ∧
    (([1, 5, 2] : List Nat).length = 3 →
      [1, 5, 2] ∉ maxlenFilter 3 [[1, 2], [1, 5, 6, 2]]) ∧
    (([1, 5, 2] : List Nat).length = 3 - 1 →
      [1, 5, 2] ∈ [[1, 2], [1, 5, 6, 2]] →
      [1, 5, 2] ∈ maxlenFilter 3 [[1, 2], [1, 5, 6, 2]]) ∧
    (∀ (chars : List Char) (files : List PyStr) (regex : PyStr)
      (out : PipelineResult),
      files_to_tfrecord_dynamic chars files regex 3 = Except.ok out →
      ∀ t ∈ out.records, t.length < 3) :=
  claim_maxlen_strict 3 (by decide) [[1, 2], [1, 5, 6, 2]] [1, 5, 2]

/-- Claim C4: reading a record written by the dataset writer returns the
identical ordered integer list that was written.  The reader ends with a
cast to 32-bit integers, so the statement carries the bound that every
written value fits in a signed 32-bit integer — always true for vocabulary
indices, which are bounded by the vocabulary size. -/
theorem claim_round_trip (seq : List Nat) (hbound : ∀ x ∈ seq, x < 2 ^ 31) :
    parse_seq (serializeExample seq) = Except.ok (seq.map Int.ofNat) := by
  have hstep : parse_seq (serializeExample seq) =
      match decodeAll (encodeInt64List seq) with
      | none => Except.error "decode failure"
      | some vs => Except.ok (vs.map int32cast) := rfl
  rw [hstep, decodeAll_encode]
  show Except.ok (seq.map int32cast) = Except.ok (seq.map Int.ofNat)
  congr 1
  apply List.map_congr_left
  intro x hx
  have hb := hbound x hx
  unfold int32cast
  rw [Nat.mod_eq_of_lt (by omega)]
  rw [if_pos hb]
  rfl

theorem claim_round_trip_witness :
    parse_seq (serializeExample [1, 3, 200, 2]) =
      Except.ok ([1, 3, 200, 2].map Int.ofNat) :=
  claim_round_trip [1, 3, 200, 2] (by decide)

/-- Claim C5 counterexample: on an empty corpus the pipeline does NOT raise
a fatal error — the split of the empty text yields one empty substring, so
the run succeeds and writes the single sequence START, END. -/
theorem claim_empty_corpus_counterexample :
    files_to_tfrecord_dynamic [] [] [','] 0 =
      Except.ok ⟨[[1, 2]], [(PAD_KEY, 0), (S_KEY, 1), (E_KEY, 2)]⟩ := by
  rfl

/-- Claim C5 amended: the split result is never empty (like Python's
re.split, at least one substring is always produced), so the max over the
split result is always over a nonempty collection; on an empty corpus the
pipeline therefore raises no error and writes exactly one record holding
the sequence START, END, rather than an empty dataset. -/
theorem claim_empty_corpus_amended :
    (∀ sep l : PyStr, literalSplit sep l ≠ []) ∧
    (∀ (chars : List Char) (regex : PyStr),
      files_to_tfrecord_dynamic chars [] regex 0 =
        Except.ok ⟨[[1, 2]], mkVocab chars⟩) := by
  refine ⟨literalSplit_ne_nil, ?_⟩
  intro chars regex
  unfold files_to_tfrecord_dynamic
  have htts : text_to_seqs (List.intercalate ['\n'] []) regex (mkVocab chars) =
      Except.ok [[1, 2]] := by
    show text_to_seqs [] regex (mkVocab chars) = Except.ok [[1, 2]]
    unfold text_to_seqs
    rw [show literalSplit regex [] = [[]] from rfl]
    have hsp : seq_of_piece (mkVocab chars) [] = Except.ok [1, 2] := by
      unfold seq_of_piece
      rw [show dlookup (mkVocab chars) S_KEY = Except.ok 1 from
        (dlookup_ok_iff _ _ _).mpr (vlookup_mkVocab_S chars)]
      rw [show chs_to_inds [] (mkVocab chars) = Except.ok [] from rfl]
      rw [show dlookup (mkVocab chars) E_KEY = Except.ok 2 from
        (dlookup_ok_iff _ _ _).mpr (vlookup_mkVocab_E chars)]
      rfl
    simp only [mapExcept]
    rw [hsp]
  rw [htts]
  rfl

/-- Claim C6: the per-substring transform fails with a KeyError when some
character of the substring is not a key of the supplied vocabulary, and
succeeds when every character is a key; in particular it always succeeds
when the vocabulary was built from a corpus containing every character of
the substring, as when loader and splitter consume the same corpus. -/
theorem claim_key_contract (cs : PyStr) (m : Vocab) :
    ((∃ c ∈ cs, vlookup m [c] = none) → ∃ e, chs_to_inds cs m = Except.error e) ∧
    ((∀ c ∈ cs, (vlookup m [c]).isSome) → ∃ l, chs_to_inds cs m = Except.ok l) ∧
    (∀ (chars text : List Char), (∀ c : Char, c ∈ chars ↔ c ∈ text) →
      (∀ c ∈ cs, c ∈ text) → ∃ l, chs_to_inds cs (mkVocab chars) = Except.ok l) := by
  refine ⟨?_, ?_, ?_⟩
  · intro hmiss
    obtain ⟨c, hc, hnone⟩ := hmiss
    cases h : chs_to_inds cs m with
    | error e => exact ⟨e, rfl⟩
    | ok l =>
      obtain ⟨b, hb⟩ := mapExcept_ok_forall _ cs l h c hc
      rw [dlookup_ok_iff] at hb
      rw [hnone] at hb
      cases hb
  · intro hall
    apply mapExcept_ok_of_forall
    intro c hc
    obtain ⟨v, hv⟩ := Option.isSome_iff_exists.mp (hall c hc)
    exact ⟨v, (dlookup_ok_iff _ _ _).mpr hv⟩
  · intro chars text hchars hcs
    apply mapExcept_ok_of_forall
    intro c hc
    obtain ⟨v, hv, _⟩ := vlookup_mkVocab_of_mem chars c ((hchars c).mpr (hcs c hc))
    exact ⟨v, (dlookup_ok_iff _ _ _).mpr hv⟩

theorem claim_key_contract_witness :
    ∃ e, chs_to_inds ['z'] (mkVocab ['a']) = Except.error e :=
  (claim_key_contract ['z'] (mkVocab ['a'])).1 ⟨'z', by decide, by rfl⟩

/-- Claim C7: the length-0 filter applied after marker insertion is a
no-op — every sequence produced by the splitter has length at least 2, so
filtering out empty sequences (before or after the maxlen filter) returns
the list unchanged. -/
theorem claim_len0_noop (text regex : PyStr) (mapping : Vocab)
    (seqs : List (List Nat))
    (hok : text_to_seqs text regex mapping = Except.ok seqs) :
    len0Filter seqs = seqs ∧
    ∀ k, len0Filter (maxlenFilter k seqs) = maxlenFilter k seqs := by
  have hlen : ∀ s ∈ seqs, 0 < s.length := by
    intro s hs
    obtain ⟨piece, i, mid, j, _, _, _, _, h5⟩ :=
      text_to_seqs_mem text regex mapping seqs s hok hs
    subst h5
    simp
  constructor
  · rw [len0Filter, List.filter_eq_self]
    intro s hs
    simpa using hlen s hs
  · intro k
    rw [len0Filter, List.filter_eq_self]
    intro s hs
    have hmem : s ∈ seqs := (List.mem_filter.mp hs).1
    simpa using hlen s hmem

theorem claim_len0_noop_witness :
    len0Filter [[1, 3, 2]] = [[1, 3, 2]] ∧
    ∀ k, len0Filter (maxlenFilter k [[1, 3, 2]]) = maxlenFilter k [[1, 3, 2]] :=
  claim_len0_noop ['a'] [','] (mkVocab ['a']) [[1, 3, 2]] (by rfl)

/-- Claim C8: splitting the text ab,cd,ef with the delimiter pattern comma
and no length filter yields exactly three sequences whose decoded character
content, markers stripped, is ab, cd and ef in that order; the enumeration
demoChars is a duplicate-free enumeration of the character set of that
text, as the vocabulary builder requires. -/
theorem claim_split_join :
    text_to_seqs ("ab,cd,ef".toList) [','] (mkVocab demoChars) =
      Except.ok [[1, 3, 4, 2], [1, 6, 7, 2], [1, 8, 9, 2]] ∧
    decodeContent (mkVocab demoChars) [1, 3, 4, 2] = some ("ab".toList) ∧
    decodeContent (mkVocab demoChars) [1, 6, 7, 2] = some ("cd".toList) ∧
    decodeContent (mkVocab demoChars) [1, 8, 9, 2] = some ("ef".toList) ∧
    demoChars.Nodup ∧ (∀ c : Char, c ∈ demoChars ↔ c ∈ "ab,cd,ef".toList) := by
  refine ⟨by rfl, by rfl, by rfl, by rfl, by decide, ?_⟩
  intro c
  show c ∈ ['a', 'b', ',', 'c', 'd', 'e', 'f'] ↔
    c ∈ ['a', 'b', ',', 'c', 'd', ',', 'e', 'f']
  simp only [List.mem_cons, List.not_mem_nil, or_false]
  tauto

/-- Claim C9: when the maxlen filter removes every sequence, the pipeline
raises the max-over-empty-collection error, so no record is written — a
successful result with records is never produced for such inputs. -/
theorem claim_maxlen_removes_all (chars : List Char) (files : List PyStr)
    (regex : PyStr) (k : Nat) (hk : k ≠ 0) (seqs : List (List Nat))
    (hok : text_to_seqs (List.intercalate ['\n'] files) regex (mkVocab chars) =
      Except.ok seqs)
    (hall : ∀ s ∈ seqs, k ≤ s.length) :
    ∃ e, files_to_tfrecord_dynamic chars files regex k = Except.error e := by
  unfold files_to_tfrecord_dynamic
  rw [hok]
  cases seqs with
  | nil => exact ⟨_, rfl⟩
  | cons s ss =>
    have hflt : maxlenFilter k (s :: ss) = [] := by
      rw [maxlenFilter, List.filter_eq_nil_iff]
      intro t ht
      simp only [decide_eq_true_eq, Nat.not_lt]
      exact hall t ht
    refine ⟨"ValueError: max arg is an empty sequence", ?_⟩
    show (match listMax (List.map List.length (s :: ss)) with
      | Except.error e => Except.error e
      | Except.ok _ =>
        if k ≠ 0 then
          match listMax (List.map List.length (maxlenFilter k (s :: ss))) with
          | Except.error e => Except.error e
          | Except.ok _ =>
            Except.ok (PipelineResult.mk (len0Filter (maxlenFilter k (s :: ss)))
              (mkVocab chars))
        else Except.ok (PipelineResult.mk (len0Filter (s :: ss)) (mkVocab chars))) =
      Except.error "ValueError: max arg is an empty sequence"
    rw [show listMax (List.map List.length (s :: ss)) =
      Except.ok ((List.map List.length ss).foldl max s.length) from rfl]
    rw [if_pos hk, hflt]
    rfl

theorem claim_maxlen_removes_all_witness :
    ∃ e, files_to_tfrecord_dynamic ['a'] [['a']] [','] 2 = Except.error e :=
  claim_maxlen_removes_all ['a'] [['a']] [','] 2 (by decide) [[1, 3, 2]]
    (by rfl) (by decide)

/-- Claim C10: the PAD index 0 never appears in any record written by the
pipeline — every element of every written sequence is START (1), END (2),
or a content index at least 3. -/
theorem claim_no_pad (chars : List Char) (files : List PyStr) (regex : PyStr)
    (maxlen : Nat) (out : PipelineResult)
    (hok : files_to_tfrecord_dynamic chars files regex maxlen = Except.ok out) :
    ∀ s ∈ out.records, ∀ v ∈ s, v = 1 ∨ v = 2 ∨ 3 ≤ v := by
  obtain ⟨_, seqs, hseqs, hrec⟩ := pipeline_ok_spec chars files regex maxlen out hok
  intro s hs v hv
  obtain ⟨piece, i, mid, j, _, h2, h3, h4, h5⟩ :=
    text_to_seqs_mem _ _ _ _ _ hseqs (hrec s hs).1
  subst h5
  rw [vlookup_mkVocab_S] at h2
  rw [vlookup_mkVocab_E] at h4
  injection h2 with h2
  injection h4 with h4
  rcases List.mem_cons.mp hv with rfl | hv'
  · exact Or.inl h2.symm
  · rcases List.mem_append.mp hv' with hm | hj
    · obtain ⟨c, _, hc⟩ := chs_to_inds_ok_mem piece (mkVocab chars) mid h3 v hm
      exact Or.inr (Or.inr (vlookup_mkVocab_char_ge chars c v hc))
    · rw [List.mem_singleton] at hj
      subst hj
      exact Or.inr (Or.inl h4.symm)

theorem claim_no_pad_witness :
    (3 : Nat) = 1 ∨ (3 : Nat) = 2 ∨ 3 ≤ (3 : Nat) :=
  claim_no_pad ['a'] [['a']] [','] 0 (PipelineResult.mk [[1, 3, 2]] (mkVocab ['a']))
    (by rfl) [1, 3, 2] (by decide) 3 (by decide)

end PrepareData
